import Mathlib

/-!
Verification of the assumerole tool (src/assumerole/main.py).

The core logic is embedded shallowly:

* JSON documents (the cache file holds one) are the inductive type JValue.
  Python dicts are insertion-ordered association lists with unique keys in
  practice; lookup takes the first match and assignment replaces in place,
  matching dict semantics on the states the program produces.
* Python dynamic-typing failures (TypeError on membership tests against
  non-containers, AttributeError on missing methods, KeyError, the assert
  in assume_profile_role) are modelled with an explicit error type and
  Except-returning helpers mirroring the operations the source performs.
* The filesystem is a record holding the cache file slot and the
  corrupt.json slot.  A file's content is recorded as the outcome of
  json.loads on it: either a parsed JValue or an unparseable blob.
  json.dumps of a JValue produces text that json.loads maps back to an
  equal value (the contract of the external json library), so write_text
  of json.dumps is modelled as storing the parsed value.
* External collaborators (boto3 STS, the MFA prompt, pwd / socket) are
  inputs: the orchestrator takes the local user, hostname and MFA code as
  parameters and records its outward interactions as an event trace.
-/

set_option autoImplicit false

namespace AssumeRole

/-- JSON values as Python's json module produces them, restricted to the
shapes a cache document can hold (floats do not occur in this program's
documents). Objects are insertion-ordered key/value lists. -/
inductive JValue where
  | null : JValue
  | bool : Bool → JValue
  | int : Int → JValue
  | str : String → JValue
  | arr : List JValue → JValue
  | obj : List (String × JValue) → JValue

/-- Python exception kinds the embedded code can raise. -/
inductive PyError where
  | typeError : PyError
  | keyError : PyError
  | attributeError : PyError
  | assertionError : PyError
deriving DecidableEq, Repr

/-- First-match lookup in an association list: Python dict subscript /
membership semantics (keys unique in the states the program builds). -/
def alookup {α : Type} : List (String × α) → String → Option α
  | [], _ => none
  | (k, v) :: rest, key => if k = key then some v else alookup rest key

/-- Python dict assignment: replace the value in place when the key is
present, append otherwise (insertion order preserved). -/
def aset {α : Type} : List (String × α) → String → α → List (String × α)
  | [], key, v => [(key, v)]
  | (k, w) :: rest, key, v =>
      if k = key then (key, v) :: rest else (k, w) :: aset rest key v

/-- Python truthiness of a JSON value: None, False, 0, empty string,
empty list and empty dict are falsy. -/
def truthy : JValue → Bool
  | .null => false
  | .bool b => b
  | .int n => n != 0
  | .str s => s != ""
  | .arr xs => !xs.isEmpty
  | .obj kvs => !kvs.isEmpty

/-- Does the character list pat occur at the head of the second list? -/
def startsWithL : List Char → List Char → Bool
  | [], _ => true
  | _ :: _, [] => false
  | a :: as, b :: bs => a = b && startsWithL as bs

/-- Does the character list pat occur anywhere in the haystack?
(Python substring membership.) -/
def occursIn (pat : List Char) : List Char → Bool
  | [] => startsWithL pat []
  | c :: rest => startsWithL pat (c :: rest) || occursIn pat rest

/-- Membership of a string needle in a list (Python: "k" in somelist
compares the needle for equality with each element; it can only equal
string elements). -/
def strElem (key : String) : List JValue → Bool
  | [] => false
  | .str s :: rest => s = key || strElem key rest
  | _ :: rest => strElem key rest

/-- Python: key in container, for a string key.  Dicts test key
membership, strings test substring, lists test element equality; the
remaining values raise TypeError (argument of type ... is not iterable). -/
def pyIn (key : String) : JValue → Except PyError Bool
  | .obj kvs => .ok (alookup kvs key).isSome
  | .str s => .ok (occursIn key.data s.data)
  | .arr xs => .ok (strElem key xs)
  | _ => .error .typeError

/-- Python: container[key] for a string key.  Only dicts accept string
subscripts (KeyError when absent); strings and lists demand integer
indices (TypeError); the rest are not subscriptable (TypeError). -/
def pyGetItem (v : JValue) (key : String) : Except PyError JValue :=
  match v with
  | .obj kvs =>
      match alookup kvs key with
      | some x => .ok x
      | none => .error .keyError
  | _ => .error .typeError

/-- Python: a > b on JSON values.  Numbers (bools are ints) compare
numerically, two strings compare lexicographically, any other mix raises
TypeError. -/
def pyGt (a b : JValue) : Except PyError Bool :=
  match a, b with
  | .int x, .int y => .ok (decide (y < x))
  | .int x, .bool c => .ok (decide ((if c then (1 : Int) else 0) < x))
  | .bool c, .int y => .ok (decide (y < (if c then (1 : Int) else 0)))
  | .bool c, .bool d =>
      .ok (decide ((if d then (1 : Int) else 0) < (if c then (1 : Int) else 0)))
  | .str x, .str y => .ok (decide (y < x))
  | _, _ => .error .typeError

/-- Content of a file slot, recorded as the outcome of json.loads on it:
parsed v when the text parses to v, corrupt when json.loads would raise
JSONDecodeError. -/
inductive FileContent where
  | parsed : JValue → FileContent
  | corrupt : FileContent

/-- The slice of the filesystem the tool touches: the cache file
(~/.local/share/assumerole/cache.json) and the corrupt.json path next to
it.  A slot is none when that file does not exist. -/
structure FS where
  cacheFile : Option FileContent
  corruptFile : Option FileContent

/-- First-run filesystem: neither file exists. -/
def emptyFS : FS := { cacheFile := none, corruptFile := none }

/-- Result of load_cache: the filesystem afterwards, the value returned,
and whether the corrupt-cache warning was logged. -/
structure LoadResult where
  fsAfter : FS
  value : JValue
  warned : Bool

/-- Exact text of the corrupt-cache warning (paths interpolated), from
load_cache in main.py. -/
def corruptWarnMsg : String :=
  "Cache is corrupt. It will be moved to corrupt.json and the program " ++
  "will proceed as if you had no cache."

/-- load_cache from main.py.  Missing file: return the default empty
dict.  Unparseable file: the JSONDecodeError from json.loads is caught,
the warning is logged, and the empty dict is returned; the function
performs no filesystem mutation in any branch (the warning's announced
move never happens).  Parseable file: return whatever json.loads gave,
whatever its shape. -/
def load_cache (fs : FS) : LoadResult :=
  match fs.cacheFile with
  | none => { fsAfter := fs, value := .obj [], warned := false }
  | some (.parsed v) => { fsAfter := fs, value := v, warned := false }
  | some .corrupt => { fsAfter := fs, value := .obj [], warned := true }

/-- write_cache from main.py: p.write_text(json.dumps(data)).  The dumped
text parses back to data, so the slot records parsed data.  Only the
cache file slot is touched (mkdir of the parent creates no file). -/
def write_cache (fs : FS) (data : JValue) : FS :=
  { fs with cacheFile := some (.parsed data) }

/-- get_max_duration from main.py, applied to the value load_cache
returned.  An empty or falsy cache, a cache without the
MaxSessionDuration key, or a table without the role yields 0; otherwise
the stored value is returned as-is.  The membership tests and subscripts
follow Python semantics, so a truthy non-container cache raises
TypeError. -/
def get_max_duration (cache : JValue) (role_arn : String) : Except PyError JValue := do
  if truthy cache = false then return .int 0
  let hasTable ← pyIn "MaxSessionDuration" cache
  if hasTable = false then return .int 0
  let table ← pyGetItem cache "MaxSessionDuration"
  let hasRole ← pyIn role_arn table
  if hasRole = false then return .int 0
  pyGetItem table role_arn

/-- cache_max_duration from main.py.  Loads the cache,
cache.setdefault("MaxSessionDuration", dict()) (AttributeError when the
loaded value is not a dict), reads the current entry with
max_durations.get(role_arn, 0) (AttributeError when the table is not a
dict), and only when the new duration compares strictly greater does it
write the whole document back; otherwise the filesystem is untouched. -/
def cache_max_duration (fs : FS) (role_arn : String) (d : JValue) : Except PyError FS :=
  match (load_cache fs).value with
  | .obj kvs =>
      let kvs1 : List (String × JValue) :=
        match alookup kvs "MaxSessionDuration" with
        | some _ => kvs
        | none => aset kvs "MaxSessionDuration" (.obj [])
      match alookup kvs1 "MaxSessionDuration" with
      | some (.obj tkvs) => do
          let cur := (alookup tkvs role_arn).getD (.int 0)
          let gt ← pyGt d cur
          if gt then
            let tkvs1 := aset tkvs role_arn d
            let kvs2 := aset kvs1 "MaxSessionDuration" (.obj tkvs1)
            return write_cache fs (.obj kvs2)
          else
            return fs
      | _ => .error .attributeError
  | _ => .error .attributeError

/-- Characters of a string before its first occurrence of sep: the first
component of Python's str.partition(sep) for a single-character
separator. -/
def beforeChar (sep : Char) : List Char → List Char
  | [] => []
  | c :: rest => if c = sep then [] else c :: beforeChar sep rest

/-- get_default_session_name from main.py: user at hostname truncated at
its first dot.  The local user and the full hostname come from the pwd
and socket collaborators and are passed in. -/
def get_default_session_name (user host : String) : String :=
  user ++ "@" ++ String.mk (beforeChar '.' host.data)

/-- The composed STS AssumeRole request.  durationSeconds is an optional
field: none means the key is absent from the request dict. -/
structure Request where
  roleArn : String
  roleSessionName : String
  durationSeconds : Option JValue
  serialNumber : Option String
  tokenCode : Option String

/-- Outward interactions of one invocation, in order. -/
inductive Event where
  | mfaPrompt : Event
  | stsAssumeRole : Request → Event
  | cacheRecord : Event

/-- Lines 114-124 of main.py: the final session_duration value and the
DurationSeconds field of the request.  A falsy explicit duration (the
CLI turns an absent --duration flag into 0) is replaced by the cache's
best guess; the field is set only when the resulting value is truthy. -/
def resolve_duration (cache : JValue) (role_arn : String) (explicit : Int) :
    Except PyError (JValue × Option JValue) := do
  let sd : JValue := .int explicit
  let sd ← if truthy sd = false then get_max_duration cache role_arn else pure sd
  if truthy sd then return (sd, some sd) else return (sd, none)

/-- assume_profile_role from main.py, with the external collaborators as
parameters: config is the scoped profile config, user and host feed the
default session name, mfaCode is what the questionary prompt would
return, and the STS response itself is opaque (only the request sent and
the resulting filesystem matter here).  Returns the event trace
accumulated up to success or failure.  The assert on role_arn raises
AssertionError before anything else happens. -/
def assume_profile_role (config : List (String × String))
    (session_name : String) (session_duration : Int) (fs : FS)
    (user host mfaCode : String) :
    List Event × Except PyError (Request × FS) :=
  match alookup config "role_arn" with
  | none => ([], .error .assertionError)
  | some role_arn =>
    let name := if session_name = "" then get_default_session_name user host
                else session_name
    match resolve_duration (load_cache fs).value role_arn session_duration with
    | .error e => ([], .error e)
    | .ok (sd, durField) =>
      let rq0 : Request :=
        { roleArn := role_arn, roleSessionName := name,
          durationSeconds := durField, serialNumber := none, tokenCode := none }
      let (events1, rq) :=
        match alookup config "mfa_serial" with
        | some serial =>
            ([Event.mfaPrompt],
             { rq0 with serialNumber := some serial, tokenCode := some mfaCode })
        | none => ([], rq0)
      let events2 := events1 ++ [Event.stsAssumeRole rq]
      if truthy sd then
        match cache_max_duration fs role_arn sd with
        | .error e => (events2, .error e)
        | .ok fs1 => (events2 ++ [Event.cacheRecord], .ok (rq, fs1))
      else
        (events2, .ok (rq, fs))

/-- The credential bundle inside the STS response. -/
structure Credentials where
  accessKeyId : String
  secretAccessKey : String
  sessionToken : String

/-- compose_envars from main.py: a dict of the three variables in
insertion order, each rendered as an export assignment, joined by
newlines. -/
def compose_envars (creds : Credentials) : String :=
  String.intercalate "\n"
    (([("AWS_ACCESS_KEY_ID", creds.accessKeyId),
       ("AWS_SECRET_ACCESS_KEY", creds.secretAccessKey),
       ("AWS_SESSION_TOKEN", creds.sessionToken)].map
      (fun kv => "export " ++ kv.1 ++ "=" ++ kv.2)))

/-- Split a character list at newline characters (for stating the
line structure of compose_envars output). -/
def splitLines : List Char → List (List Char)
  | [] => [[]]
  | c :: rest =>
      if c = '\n' then [] :: splitLines rest
      else
        match splitLines rest with
        | [] => [[c]]
        | l :: ls => (c :: l) :: ls

/-- Every entry of a duration table is a strictly positive integer (the
shape cache_max_duration itself produces). -/
def PosEntriesB : List (String × JValue) → Bool
  | [] => true
  | (_, .int n) :: rest => decide (0 < n) && PosEntriesB rest
  | _ => false

/-- The integer a well-formed duration table associates to a role, with 0
for absent (the default of max_durations.get(role_arn, 0)). -/
def curT (t : List (String × JValue)) (arn : String) : Int :=
  match alookup t arn with
  | some (.int n) => n
  | _ => 0

/-- Effect of one cache_max_duration call on the duration table: record d
exactly when it strictly exceeds the current entry. -/
def stepT (t : List (String × JValue)) (arn : String) (d : Int) :
    List (String × JValue) :=
  if curT t arn < d then aset t arn (.int d) else t

/-- Iterated stepT over a sequence of recordings. -/
def runT (t : List (String × JValue)) : List (String × Int) → List (String × JValue)
  | [] => t
  | (arn, d) :: rest => runT (stepT t arn d) rest

/-- A filesystem whose cache file holds exactly the duration table t (the
only cache documents the tool itself ever writes). -/
def mkFS (t : List (String × JValue)) : FS :=
  { cacheFile := some (.parsed (.obj [("MaxSessionDuration", .obj t)])),
    corruptFile := none }

/-- Run a sequence of cache_max_duration calls, stopping at the first
error. -/
def runRecords (fs : FS) : List (String × Int) → Except PyError FS
  | [] => .ok fs
  | (arn, d) :: rest =>
      match cache_max_duration fs arn (.int d) with
      | .error e => .error e
      | .ok fs1 => runRecords fs1 rest

/-- Largest duration recorded for a role in a sequence of recordings, 0
when none. -/
def recordedMax (arn : String) : List (String × Int) → Int
  | [] => 0
  | (a, d) :: rest =>
      if a = arn then max d (recordedMax arn rest) else recordedMax arn rest

/-- The duration the cache file currently holds for a role, 0 when the
file, table or entry is absent or ill-shaped. -/
def maxDurVal (fs : FS) (arn : String) : Int :=
  match (load_cache fs).value with
  | .obj kvs =>
      match alookup kvs "MaxSessionDuration" with
      | some (.obj t) => curT t arn
      | _ => 0
  | _ => 0

theorem alookup_aset {α : Type} (t : List (String × α)) (a k : String) (v : α) :
    alookup (aset t a v) k = if a = k then some v else alookup t k := by
  induction t with
  | nil => simp [aset, alookup]
  | cons hd rest ih =>
      obtain ⟨b, w⟩ := hd
      by_cases hba : b = a
      · subst hba
        by_cases hk : b = k <;> simp [aset, alookup, hk]
      · by_cases hk : b = k
        · subst hk
          have hak : ¬ a = b := fun h => hba h.symm
          simp [aset, alookup, hba, hak]
        · simp [aset, alookup, hba, hk, ih]


theorem posEntries_cases {t : List (String × JValue)} (ht : PosEntriesB t = true)
    (k : String) :
    (alookup t k = none ∧ curT t k = 0) ∨
    (alookup t k = some (.int (curT t k)) ∧ 0 < curT t k) := by
  induction t with
  | nil => exact Or.inl ⟨rfl, rfl⟩
  | cons hd rest ih =>
      obtain ⟨a, v⟩ := hd
      cases v with
      | int n =>
          simp only [PosEntriesB, Bool.and_eq_true, decide_eq_true_eq] at ht
          by_cases hk : a = k
          · exact Or.inr ⟨by simp [alookup, curT, hk], by simpa [curT, alookup, hk] using ht.1⟩
          · have := ih ht.2
            simpa [alookup, curT, hk] using this
      | null => simp [PosEntriesB] at ht
      | bool b => simp [PosEntriesB] at ht
      | str s => simp [PosEntriesB] at ht
      | arr xs => simp [PosEntriesB] at ht
      | obj kvs => simp [PosEntriesB] at ht

theorem curT_nonneg {t : List (String × JValue)} (ht : PosEntriesB t = true)
    (k : String) : 0 ≤ curT t k := by
  rcases posEntries_cases ht k with ⟨_, h0⟩ | ⟨_, hpos⟩
  · omega
  · omega

theorem posEntries_getD {t : List (String × JValue)} (ht : PosEntriesB t = true)
    (k : String) : (alookup t k).getD (.int 0) = .int (curT t k) := by
  rcases posEntries_cases ht k with ⟨hnone, h0⟩ | ⟨hsome, _⟩
  · rw [hnone, h0]; rfl
  · rw [hsome]; rfl

theorem posEntries_aset {t : List (String × JValue)} (ht : PosEntriesB t = true)
    {d : Int} (hd : 0 < d) (a : String) :
    PosEntriesB (aset t a (.int d)) = true := by
  induction t with
  | nil => simp [aset, PosEntriesB, hd]
  | cons hd1 rest ih =>
      obtain ⟨b, v⟩ := hd1
      cases v with
      | int n =>
          simp only [PosEntriesB, Bool.and_eq_true, decide_eq_true_eq] at ht
          by_cases hb : b = a
          · simp [aset, hb, PosEntriesB, hd, ht.2]
          · simp [aset, hb, PosEntriesB, ht.1, ih ht.2]
      | null => simp [PosEntriesB] at ht
      | bool c => simp [PosEntriesB] at ht
      | str s => simp [PosEntriesB] at ht
      | arr xs => simp [PosEntriesB] at ht
      | obj kvs => simp [PosEntriesB] at ht

theorem curT_aset (t : List (String × JValue)) (a k : String) (d : Int) :
    curT (aset t a (.int d)) k = if a = k then d else curT t k := by
  by_cases hk : a = k <;> simp [curT, alookup_aset, hk]

theorem curT_stepT (t : List (String × JValue)) (a k : String) (d : Int) :
    curT (stepT t a d) k = if a = k then max (curT t k) d else curT t k := by
  unfold stepT
  by_cases hlt : curT t a < d
  · rw [if_pos hlt, curT_aset]
    by_cases hk : a = k
    · subst hk
      rw [if_pos rfl, if_pos rfl, max_eq_right (le_of_lt hlt)]
    · rw [if_neg hk, if_neg hk]
  · rw [if_neg hlt]
    by_cases hk : a = k
    · subst hk
      rw [if_pos rfl, max_eq_left (not_lt.mp hlt)]
    · rw [if_neg hk]

theorem posEntries_stepT {t : List (String × JValue)} (ht : PosEntriesB t = true)
    {d : Int} (hd : 0 < d) (a : String) :
    PosEntriesB (stepT t a d) = true := by
  unfold stepT
  by_cases hlt : curT t a < d
  · rw [if_pos hlt]; exact posEntries_aset ht hd a
  · rw [if_neg hlt]; exact ht

theorem recordedMax_nonneg (k : String) (ops : List (String × Int)) :
    0 ≤ recordedMax k ops := by
  induction ops with
  | nil => simp [recordedMax]
  | cons hd rest ih =>
      obtain ⟨a, d⟩ := hd
      by_cases hk : a = k
      · simp only [recordedMax, if_pos hk]
        exact le_trans ih (le_max_right d _)
      · simpa [recordedMax, hk] using ih

theorem mem_le_recordedMax {a : String} {d : Int} {ops : List (String × Int)}
    (hm : (a, d) ∈ ops) : d ≤ recordedMax a ops := by
  induction ops with
  | nil => cases hm
  | cons hd rest ih =>
      obtain ⟨b, e⟩ := hd
      rcases List.mem_cons.mp hm with heq | hmem
      · obtain ⟨hb, he⟩ := Prod.mk.injEq .. ▸ heq
        subst hb; subst he
        simp only [recordedMax, if_pos rfl]
        exact le_max_left _ _
      · have hrest := ih hmem
        by_cases hb : b = a
        · simp only [recordedMax, if_pos hb]
          exact le_trans hrest (le_max_right e _)
        · simpa [recordedMax, hb] using hrest

theorem recordedMax_append (k : String) (pre post : List (String × Int)) :
    recordedMax k (pre ++ post) = max (recordedMax k pre) (recordedMax k post) := by
  induction pre with
  | nil =>
      simp only [List.nil_append, recordedMax]
      exact (max_eq_right (recordedMax_nonneg k post)).symm
  | cons hd rest ih =>
      obtain ⟨a, d⟩ := hd
      by_cases hk : a = k
      · simp only [List.cons_append, recordedMax, if_pos hk, List.append_eq]
        rw [ih, max_assoc]
      · simp only [List.cons_append, recordedMax, if_neg hk, List.append_eq]
        exact ih

theorem cache_max_duration_mkFS {t : List (String × JValue)}
    (ht : PosEntriesB t = true) (arn : String) (d : Int) :
    cache_max_duration (mkFS t) arn (.int d) = .ok (mkFS (stepT t arn d)) := by
  have hgetD := posEntries_getD ht arn
  by_cases hlt : curT t arn < d
  · simp [cache_max_duration, load_cache, mkFS, alookup, aset, write_cache,
          stepT, hgetD, pyGt, hlt, Bind.bind, Except.bind, pure, Except.pure]
  · simp [cache_max_duration, load_cache, mkFS, alookup, aset, write_cache,
          stepT, hgetD, pyGt, hlt, Bind.bind, Except.bind, pure, Except.pure]

theorem cache_max_duration_emptyFS {d : Int} (hd : 0 < d) (arn : String) :
    cache_max_duration emptyFS arn (.int d) = .ok (mkFS (stepT [] arn d)) := by
  have hlt : curT [] arn < d := hd
  simp [cache_max_duration, load_cache, emptyFS, mkFS, alookup, aset,
        write_cache, stepT, pyGt, hlt, hd, Option.getD, Bind.bind, Except.bind,
        pure, Except.pure]

theorem get_max_duration_mkDoc {t : List (String × JValue)}
    (ht : PosEntriesB t = true) (k : String) :
    get_max_duration (.obj [("MaxSessionDuration", .obj t)]) k =
      .ok (.int (curT t k)) := by
  rcases posEntries_cases ht k with ⟨hnone, h0⟩ | ⟨hsome, _⟩
  · rw [h0]
    simp [get_max_duration, truthy, pyIn, pyGetItem, alookup, hnone,
          Bind.bind, Except.bind, pure, Except.pure]
  · simp [get_max_duration, truthy, pyIn, pyGetItem, alookup, hsome,
          Bind.bind, Except.bind, pure, Except.pure]

theorem maxDurVal_mkFS (t : List (String × JValue)) (k : String) :
    maxDurVal (mkFS t) k = curT t k := by
  simp [maxDurVal, load_cache, mkFS, alookup]

theorem runRecords_mkFS (ops : List (String × Int)) :
    ∀ t : List (String × JValue), PosEntriesB t = true →
    (∀ p ∈ ops, 0 < p.2) →
    ∃ t1, runRecords (mkFS t) ops = .ok (mkFS t1) ∧ PosEntriesB t1 = true ∧
      ∀ k, curT t1 k = max (curT t k) (recordedMax k ops) := by
  induction ops with
  | nil =>
      intro t ht _
      refine ⟨t, rfl, ht, fun k => ?_⟩
      rw [recordedMax, max_eq_left (curT_nonneg ht k)]
  | cons hd rest ih =>
      intro t ht hpos
      obtain ⟨a, d⟩ := hd
      have hd0 : 0 < d := hpos (a, d) (List.mem_cons_self _ _)
      have hstep := cache_max_duration_mkFS ht a d
      have ht1 := posEntries_stepT ht hd0 a
      obtain ⟨t1, hrun, ht1', hcur⟩ :=
        ih (stepT t a d) ht1 (fun p hp => hpos p (List.mem_cons_of_mem _ hp))
      refine ⟨t1, ?_, ht1', fun k => ?_⟩
      · rw [runRecords, hstep]; exact hrun
      · rw [hcur k, curT_stepT, recordedMax]
        by_cases hk : a = k
        · rw [if_pos hk, if_pos hk, max_assoc]
        · rw [if_neg hk, if_neg hk]

theorem runRecords_empty_spec (ops : List (String × Int))
    (hpos : ∀ p ∈ ops, 0 < p.2) :
    (ops = [] ∧ runRecords emptyFS ops = .ok emptyFS) ∨
    (∃ t1, runRecords emptyFS ops = .ok (mkFS t1) ∧ PosEntriesB t1 = true ∧
      ∀ k, curT t1 k = recordedMax k ops) := by
  cases ops with
  | nil => exact Or.inl ⟨rfl, rfl⟩
  | cons hd rest =>
      obtain ⟨a, d⟩ := hd
      have hd0 : 0 < d := hpos (a, d) (List.mem_cons_self _ _)
      have hstep := cache_max_duration_emptyFS hd0 a
      have ht0 : PosEntriesB (stepT [] a d) = true := by
        simp [stepT, curT, alookup, aset, PosEntriesB, hd0]
      obtain ⟨t1, hrun, ht1, hcur⟩ :=
        runRecords_mkFS rest (stepT [] a d) ht0
          (fun p hp => hpos p (List.mem_cons_of_mem _ hp))
      refine Or.inr ⟨t1, ?_, ht1, fun k => ?_⟩
      · rw [runRecords, hstep]; exact hrun
      · rw [hcur k, recordedMax]
        have hcur0 : curT (stepT [] a d) k = if a = k then d else 0 := by
          rw [curT_stepT]
          by_cases hk : a = k
          · rw [if_pos hk, if_pos hk]
            have : curT ([] : List (String × JValue)) k = 0 := rfl
            rw [this, max_eq_right (le_of_lt hd0)]
          · rw [if_neg hk, if_neg hk]; rfl
        rw [hcur0]
        by_cases hk : a = k
        · rw [if_pos hk, if_pos hk]
        · rw [if_neg hk, if_neg hk,
              max_eq_right (recordedMax_nonneg k rest)]

/-- C1: for every sequence of successful recordings with explicit positive
durations, starting from a fresh filesystem, every call succeeds, the
cached value returned by get_max_duration for each role equals the
maximum of all durations ever recorded for that role (hence is at least
every individual recorded duration), and along every prefix of the
sequence the per-key cached value never decreases: cache_max_duration
updates the entry only when the new duration strictly exceeds the cached
one, so values form a monotonic high-water mark per key. -/
theorem cache_highwater_monotone (ops : List (String × Int))
    (hpos : ∀ p ∈ ops, 0 < p.2) :
    ∃ fs1, runRecords emptyFS ops = .ok fs1 ∧
      (∀ arn, get_max_duration (load_cache fs1).value arn =
        .ok (.int (recordedMax arn ops))) ∧
      (∀ arn d, (arn, d) ∈ ops → d ≤ recordedMax arn ops) ∧
      (∀ pre post, ops = pre ++ post →
        ∃ fsp, runRecords emptyFS pre = .ok fsp ∧
          ∀ arn, maxDurVal fsp arn ≤ maxDurVal fs1 arn) := by
  rcases runRecords_empty_spec ops hpos with ⟨hnil, hrun⟩ | ⟨t1, hrun, ht1, hcur⟩
  · subst hnil
    refine ⟨emptyFS, hrun, fun arn => rfl, fun arn d hm => absurd hm (List.not_mem_nil _),
      fun pre post hsplit => ?_⟩
    have hpre : pre = [] := (List.append_eq_nil.mp hsplit.symm).1
    subst hpre
    exact ⟨emptyFS, rfl, fun arn => le_refl _⟩
  · refine ⟨mkFS t1, hrun, fun arn => ?_, fun arn d hm => mem_le_recordedMax hm,
      fun pre post hsplit => ?_⟩
    · have : (load_cache (mkFS t1)).value = .obj [("MaxSessionDuration", .obj t1)] := rfl
      rw [this, get_max_duration_mkDoc ht1, hcur]
    · have hpre : ∀ p ∈ pre, 0 < p.2 := by
        intro p hp
        exact hpos p (hsplit ▸ List.mem_append_left post hp)
      rcases runRecords_empty_spec pre hpre with ⟨hnilp, hrunp⟩ | ⟨tp, hrunp, htp, hcurp⟩
      · refine ⟨emptyFS, hrunp, fun arn => ?_⟩
        have h0 : maxDurVal emptyFS arn = 0 := rfl
        rw [h0, maxDurVal_mkFS]
        exact curT_nonneg ht1 arn
      · refine ⟨mkFS tp, hrunp, fun arn => ?_⟩
        rw [maxDurVal_mkFS, maxDurVal_mkFS, hcurp, hcur, hsplit, recordedMax_append]
        exact le_max_left _ _

/-- Witness for C1 at a concrete recording sequence. -/
theorem cache_highwater_monotone_witness :
    ∃ fs1, runRecords emptyFS [("r", 3600), ("r", 1800), ("s", 900)] = .ok fs1 ∧
      (∀ arn, get_max_duration (load_cache fs1).value arn =
        .ok (.int (recordedMax arn [("r", 3600), ("r", 1800), ("s", 900)]))) ∧
      (∀ arn d, (arn, d) ∈ [("r", 3600), ("r", 1800), ("s", 900)] →
        d ≤ recordedMax arn [("r", 3600), ("r", 1800), ("s", 900)]) ∧
      (∀ pre post, [("r", 3600), ("r", 1800), ("s", 900)] = pre ++ post →
        ∃ fsp, runRecords emptyFS pre = .ok fsp ∧
          ∀ arn, maxDurVal fsp arn ≤ maxDurVal fs1 arn) :=
  cache_highwater_monotone [("r", 3600), ("r", 1800), ("s", 900)] (by decide)

/-- C3 (the claim is right, the code is wrong): get_max_duration returns
the plain integer 0 for a role absent from the cache, indistinguishable
from a cached value of 0, although its own docstring promises None for
the absent case.  Both the empty cache and a cache genuinely holding 0
for the role produce the identical result. -/
theorem get_max_duration_conflates_absent_with_zero :
    get_max_duration (.obj []) "arn:aws:iam::123:role/Dev" = .ok (.int 0) ∧
    get_max_duration
      (.obj [("MaxSessionDuration",
              .obj [("arn:aws:iam::123:role/Dev", .int 0)])])
      "arn:aws:iam::123:role/Dev" = .ok (.int 0) := by
  exact ⟨rfl, rfl⟩

/-- C9: corruption tolerance covers only unparseable content.  A cache
file holding valid JSON that is not an object (the bare number 5) is
returned by load_cache unchanged and without warning, and the
membership test in get_max_duration then raises TypeError instead of
degrading to the no-hint result. -/
theorem wrong_shape_cache_crashes_lookup :
    (load_cache { cacheFile := some (.parsed (.int 5)),
                  corruptFile := none }).value = .int 5 ∧
    (load_cache { cacheFile := some (.parsed (.int 5)),
                  corruptFile := none }).warned = false ∧
    get_max_duration (.int 5) "arn:aws:iam::123:role/Dev" =
      .error .typeError := by
  exact ⟨rfl, rfl, rfl⟩

/-- Iterate load_cache n times from a state, following the filesystem it
returns. -/
def loadAgain : Nat → FS → FS
  | 0, fs => fs
  | n + 1, fs => loadAgain n (load_cache fs).fsAfter

/-- C4: a missing or unparseable cache file yields the empty mapping
without raising, and since load_cache leaves the filesystem unchanged,
the same holds on every later call, not just the first. -/
theorem load_cache_corrupt_degrades_empty (fs : FS)
    (h : fs.cacheFile = none ∨ fs.cacheFile = some .corrupt) :
    (load_cache fs).value = .obj [] ∧
    (load_cache fs).fsAfter = fs ∧
    ∀ n, loadAgain n fs = fs ∧ (load_cache (loadAgain n fs)).value = .obj [] := by
  have hval : (load_cache fs).value = .obj [] := by
    rcases h with h | h <;> simp [load_cache, h]
  have hfs : (load_cache fs).fsAfter = fs := by
    rcases h with h | h <;> simp [load_cache, h]
  refine ⟨hval, hfs, fun n => ?_⟩
  have hiter : ∀ m, loadAgain m fs = fs := by
    intro m
    induction m with
    | zero => rfl
    | succ k ih => rw [loadAgain, hfs]; exact ih
  exact ⟨hiter n, by rw [hiter n]; exact hval⟩

/-- Witness for C4 at a concrete corrupt filesystem. -/
theorem load_cache_corrupt_degrades_empty_witness :
    (load_cache { cacheFile := some .corrupt, corruptFile := none }).value = .obj [] ∧
    (load_cache { cacheFile := some .corrupt, corruptFile := none }).fsAfter =
      { cacheFile := some .corrupt, corruptFile := none } ∧
    ∀ n, loadAgain n { cacheFile := some .corrupt, corruptFile := none } =
        { cacheFile := some .corrupt, corruptFile := none } ∧
      (load_cache (loadAgain n { cacheFile := some .corrupt, corruptFile := none })).value =
        .obj [] :=
  load_cache_corrupt_degrades_empty _ (Or.inr rfl)

/-- C10: loading a corrupt cache leaves the filesystem entirely
unchanged: the cache file keeps its corrupt content, the corrupt.json
slot is untouched (nothing is moved or created), even though the logged
warning text announces a move to corrupt.json; consequently every later
load re-reads the same corrupt content and again returns the empty
mapping with the same warning. -/
theorem load_cache_corrupt_leaves_file (fs : FS)
    (h : fs.cacheFile = some .corrupt) :
    (load_cache fs).fsAfter = fs ∧
    (load_cache fs).fsAfter.cacheFile = some .corrupt ∧
    (load_cache fs).fsAfter.corruptFile = fs.corruptFile ∧
    (load_cache fs).warned = true ∧
    occursIn "corrupt.json".data corruptWarnMsg.data = true ∧
    (load_cache (load_cache fs).fsAfter).value = .obj [] ∧
    (load_cache (load_cache fs).fsAfter).warned = true := by
  have hfs : (load_cache fs).fsAfter = fs := by simp [load_cache, h]
  refine ⟨hfs, by rw [hfs]; exact h, by rw [hfs], by simp [load_cache, h],
    by decide, by rw [hfs]; simp [load_cache, h], by rw [hfs]; simp [load_cache, h]⟩

/-- Witness for C10 at a concrete corrupt filesystem. -/
theorem load_cache_corrupt_leaves_file_witness :
    (load_cache { cacheFile := some .corrupt,
                  corruptFile := some (.parsed .null) }).fsAfter =
      { cacheFile := some .corrupt, corruptFile := some (.parsed .null) } ∧
    (load_cache { cacheFile := some .corrupt,
                  corruptFile := some (.parsed .null) }).fsAfter.cacheFile =
      some .corrupt ∧
    (load_cache { cacheFile := some .corrupt,
                  corruptFile := some (.parsed .null) }).fsAfter.corruptFile =
      ({ cacheFile := some .corrupt,
         corruptFile := some (.parsed .null) } : FS).corruptFile ∧
    (load_cache { cacheFile := some .corrupt,
                  corruptFile := some (.parsed .null) }).warned = true ∧
    occursIn "corrupt.json".data corruptWarnMsg.data = true ∧
    (load_cache (load_cache { cacheFile := some .corrupt,
                              corruptFile := some (.parsed .null) }).fsAfter).value =
      .obj [] ∧
    (load_cache (load_cache { cacheFile := some .corrupt,
                              corruptFile := some (.parsed .null) }).fsAfter).warned =
      true :=
  load_cache_corrupt_leaves_file _ rfl

/-- C6: writing a valid cache document (role ARNs mapped to positive
integers) and loading it back yields the same document, with no
corruption warning. -/
theorem write_then_load_roundtrip (fs : FS) (t : List (String × JValue))
    (_hvalid : PosEntriesB t = true) :
    (load_cache (write_cache fs (.obj [("MaxSessionDuration", .obj t)]))).value =
      .obj [("MaxSessionDuration", .obj t)] ∧
    (load_cache (write_cache fs (.obj [("MaxSessionDuration", .obj t)]))).warned =
      false ∧
    ∀ arn, maxDurVal (write_cache fs (.obj [("MaxSessionDuration", .obj t)])) arn =
      curT t arn := by
  refine ⟨rfl, rfl, fun arn => ?_⟩
  simp [maxDurVal, load_cache, write_cache, alookup]

/-- Witness for C6 at a concrete mapping. -/
theorem write_then_load_roundtrip_witness :
    (load_cache (write_cache emptyFS
        (.obj [("MaxSessionDuration",
                .obj [("arn:aws:iam::123:role/Dev", .int 3600)])]))).value =
      .obj [("MaxSessionDuration",
             .obj [("arn:aws:iam::123:role/Dev", .int 3600)])] ∧
    (load_cache (write_cache emptyFS
        (.obj [("MaxSessionDuration",
                .obj [("arn:aws:iam::123:role/Dev", .int 3600)])]))).warned =
      false ∧
    ∀ arn, maxDurVal (write_cache emptyFS
        (.obj [("MaxSessionDuration",
                .obj [("arn:aws:iam::123:role/Dev", .int 3600)])])) arn =
      curT [("arn:aws:iam::123:role/Dev", .int 3600)] arn :=
  write_then_load_roundtrip emptyFS _ rfl

/-- C5: a profile whose configuration lacks role_arn makes
assume_profile_role fail with the assertion error (the realization of
ConfigurationError) before any outward interaction: the event trace is
empty, so no MFA prompt, no STS call and no cache recording happened. -/
theorem missing_role_arn_fails_before_effects (config : List (String × String))
    (session_name : String) (session_duration : Int) (fs : FS)
    (user host mfaCode : String)
    (hno : alookup config "role_arn" = none) :
    assume_profile_role config session_name session_duration fs user host mfaCode =
      ([], .error .assertionError) := by
  simp [assume_profile_role, hno]

/-- Witness for C5 at a concrete configuration without role_arn. -/
theorem missing_role_arn_fails_before_effects_witness :
    assume_profile_role [("mfa_serial", "dev0")] "" 0 emptyFS
      "alice" "box.example.com" "123456" = ([], .error .assertionError) :=
  missing_role_arn_fails_before_effects _ _ _ _ _ _ _ rfl

/-- A cache document of the shape the tool reads and writes: a JSON
object whose MaxSessionDuration key, when present, holds an object with
positive-integer entries. -/
def WFCacheDocB : JValue → Bool
  | .obj kvs =>
      match alookup kvs "MaxSessionDuration" with
      | none => true
      | some (.obj t) => PosEntriesB t
      | some _ => false
  | _ => false

/-- The entry a cache document holds for a role, none when the document,
the table or the entry is absent. -/
def cacheEntry (cache : JValue) (arn : String) : Option JValue :=
  match cache with
  | .obj kvs =>
      match alookup kvs "MaxSessionDuration" with
      | some (.obj t) => alookup t arn
      | _ => none
  | _ => none

theorem alookup_ne_nil {α : Type} {kvs : List (String × α)} {key : String}
    {v : α} (h : alookup kvs key = some v) : kvs ≠ [] := by
  intro hnil
  rw [hnil] at h
  exact Option.noConfusion h

theorem get_max_duration_of_wf (cache : JValue) (arn : String)
    (hwf : WFCacheDocB cache = true) :
    (cacheEntry cache arn = none → get_max_duration cache arn = .ok (.int 0)) ∧
    (∀ v, cacheEntry cache arn = some v → get_max_duration cache arn = .ok v) := by
  cases cache with
  | obj kvs =>
      cases hk : alookup kvs "MaxSessionDuration" with
      | none =>
          refine ⟨fun _ => ?_, fun v hv => ?_⟩
          · cases kvs with
            | nil => rfl
            | cons hd rest =>
                simp [get_max_duration, truthy, pyIn, hk, Bind.bind, Except.bind,
                      pure, Except.pure]
          · simp [cacheEntry, hk] at hv
      | some tv =>
          have hkvs := alookup_ne_nil hk
          cases tv with
          | obj t =>
              have hne : kvs.isEmpty = false := by
                cases kvs with
                | nil => exact absurd rfl hkvs
                | cons hd rest => rfl
              cases he : alookup t arn with
              | none =>
                  refine ⟨fun _ => ?_, fun v hv => ?_⟩
                  · simp [get_max_duration, truthy, hne, pyIn, pyGetItem, hk, he,
                          Bind.bind, Except.bind, pure, Except.pure]
                  · simp [cacheEntry, hk, he] at hv
              | some v0 =>
                  refine ⟨fun hnone => ?_, fun v hv => ?_⟩
                  · simp [cacheEntry, hk, he] at hnone
                  · have hv0 : v0 = v := by
                      simp [cacheEntry, hk, he] at hv
                      exact hv
                    subst hv0
                    simp [get_max_duration, truthy, hne, pyIn, pyGetItem, hk, he,
                          Bind.bind, Except.bind, pure, Except.pure]
          | null => simp [WFCacheDocB, hk] at hwf
          | bool b => simp [WFCacheDocB, hk] at hwf
          | int n => simp [WFCacheDocB, hk] at hwf
          | str s => simp [WFCacheDocB, hk] at hwf
          | arr xs => simp [WFCacheDocB, hk] at hwf
  | null => simp [WFCacheDocB] at hwf
  | bool b => simp [WFCacheDocB] at hwf
  | int n => simp [WFCacheDocB] at hwf
  | str s => simp [WFCacheDocB] at hwf
  | arr xs => simp [WFCacheDocB] at hwf

/-- C2: how the DurationSeconds field of the request is chosen.  With no
explicit duration (the CLI passes 0) and no cached entry for the role,
the field is omitted entirely (none, not zero and not a default); with
no explicit duration and a cached positive hint, the hint becomes the
field; a non-zero explicit duration is used as-is. -/
theorem duration_field_choice (cache : JValue) (arn : String) (explicit : Int)
    (hwf : WFCacheDocB cache = true) :
    (explicit = 0 → cacheEntry cache arn = none →
      resolve_duration cache arn explicit = .ok (.int 0, none)) ∧
    (∀ h : Int, explicit = 0 → 0 < h → cacheEntry cache arn = some (.int h) →
      resolve_duration cache arn explicit = .ok (.int h, some (.int h))) ∧
    (explicit ≠ 0 →
      resolve_duration cache arn explicit = .ok (.int explicit, some (.int explicit))) := by
  obtain ⟨habsent, hpresent⟩ := get_max_duration_of_wf cache arn hwf
  refine ⟨fun h0 hnone => ?_, fun h h0 hhpos hsome => ?_, fun hne => ?_⟩
  · subst h0
    simp [resolve_duration, truthy, habsent hnone, Bind.bind, Except.bind,
          pure, Except.pure]
  · subst h0
    have hh : h ≠ 0 := ne_of_gt hhpos
    simp [resolve_duration, truthy, hpresent _ hsome, hh, Bind.bind, Except.bind,
          pure, Except.pure]
  · simp [resolve_duration, truthy, hne, Bind.bind, Except.bind, pure, Except.pure]

/-- Witness for C2: an empty cache omits the field, a cached hint of 7200
is used, an explicit 900 is used as-is. -/
theorem duration_field_choice_witness :
    ((0 : Int) = 0 → cacheEntry (.obj []) "arn:r" = none →
      resolve_duration (.obj []) "arn:r" 0 = .ok (.int 0, none)) ∧
    (∀ h : Int, (0 : Int) = 0 → 0 < h → cacheEntry (.obj []) "arn:r" = some (.int h) →
      resolve_duration (.obj []) "arn:r" 0 = .ok (.int h, some (.int h))) ∧
    ((0 : Int) ≠ 0 →
      resolve_duration (.obj []) "arn:r" 0 = .ok (.int 0, some (.int 0))) :=
  duration_field_choice (.obj []) "arn:r" 0 rfl

/-- Direct evaluation of the duration choice on a cache with a hint: the
cached 7200 is sent when no explicit duration is given, and an explicit
900 is sent as-is. -/
theorem resolve_duration_concrete_cases :
    resolve_duration (.obj [("MaxSessionDuration", .obj [("arn:r", .int 7200)])])
        "arn:r" 0 = .ok (.int 7200, some (.int 7200)) ∧
    resolve_duration (.obj [("MaxSessionDuration", .obj [("arn:r", .int 7200)])])
        "arn:r" 900 = .ok (.int 900, some (.int 900)) :=
  ⟨rfl, rfl⟩

theorem beforeChar_no_dot {l : List Char} (h : '.' ∉ l) : beforeChar '.' l = l := by
  induction l with
  | nil => rfl
  | cons c rest ih =>
      have hc : ¬ c = '.' := fun hc => h (hc ▸ List.mem_cons_self _ _)
      have hrest : '.' ∉ rest := fun hm => h (List.mem_cons_of_mem _ hm)
      simp [beforeChar, hc, ih hrest]

theorem beforeChar_until_dot {a : List Char} (b : List Char) (h : '.' ∉ a) :
    beforeChar '.' (a ++ '.' :: b) = a := by
  induction a with
  | nil => simp [beforeChar]
  | cons c rest ih =>
      have hc : ¬ c = '.' := fun hc => h (hc ▸ List.mem_cons_self _ _)
      have hrest : '.' ∉ rest := fun hm => h (List.mem_cons_of_mem _ hm)
      simp [beforeChar, hc, ih hrest]

theorem string_mk_data (s : String) : String.mk s.data = s := by
  cases s
  rfl

/-- C8: the session name attached to the composed request is the
caller-supplied override when one was given, else user at hostname
truncated at its first dot; the truncation is exactly "everything before
the first dot" (and the whole hostname when it has no dot), and on user
alice and host box.example.com the default is alice@box. -/
theorem session_name_attached (config : List (String × String)) (arn : String)
    (session_name : String) (session_duration : Int) (fs : FS)
    (user host mfaCode : String)
    (hr : alookup config "role_arn" = some arn)
    (p : JValue × Option JValue)
    (hres : resolve_duration (load_cache fs).value arn session_duration = .ok p) :
    (∃ rq, Event.stsAssumeRole rq ∈
        (assume_profile_role config session_name session_duration fs
          user host mfaCode).1 ∧
      rq.roleArn = arn ∧
      rq.roleSessionName =
        (if session_name = "" then get_default_session_name user host
         else session_name)) ∧
    (∀ a b : String, '.' ∉ a.data →
      get_default_session_name user (a ++ "." ++ b) = user ++ "@" ++ a) ∧
    ('.' ∉ host.data → get_default_session_name user host = user ++ "@" ++ host) ∧
    get_default_session_name "alice" "box.example.com" = "alice@box" := by
  refine ⟨?_, fun a b ha => ?_, fun hh => ?_, by decide⟩
  · obtain ⟨sd, df⟩ := p
    simp only [assume_profile_role, hr, hres]
    cases hm : alookup config "mfa_serial" with
    | none =>
        refine ⟨{ roleArn := arn,
                  roleSessionName :=
                    if session_name = "" then get_default_session_name user host
                    else session_name,
                  durationSeconds := df, serialNumber := none,
                  tokenCode := none }, ?_, rfl, rfl⟩
        by_cases ht : truthy sd
        · cases hc : cache_max_duration fs arn sd with
          | error e => simp [ht, hc]
          | ok fs1 => simp [ht, hc]
        · simp [ht]
    | some serial =>
        refine ⟨{ roleArn := arn,
                  roleSessionName :=
                    if session_name = "" then get_default_session_name user host
                    else session_name,
                  durationSeconds := df, serialNumber := some serial,
                  tokenCode := some mfaCode }, ?_, rfl, rfl⟩
        by_cases ht : truthy sd
        · cases hc : cache_max_duration fs arn sd with
          | error e => simp [ht, hc]
          | ok fs1 => simp [ht, hc]
        · simp [ht]
  · have hdot : ("." : String).data = ['.'] := rfl
    have hdata : (a ++ "." ++ b).data = a.data ++ '.' :: b.data := by
      rw [String.data_append, String.data_append, hdot, List.append_assoc]
      rfl
    rw [get_default_session_name, hdata, beforeChar_until_dot _ ha, string_mk_data]
  · rw [get_default_session_name, beforeChar_no_dot hh, string_mk_data]

/-- Witness for C8 at a concrete invocation with no override on user
alice and host box.example.com. -/
theorem session_name_attached_witness :
    (∃ rq, Event.stsAssumeRole rq ∈
        (assume_profile_role [("role_arn", "arn:aws:iam::123:role/Dev")] "" 0
          emptyFS "alice" "box.example.com" "").1 ∧
      rq.roleArn = "arn:aws:iam::123:role/Dev" ∧
      rq.roleSessionName =
        (if ("" : String) = "" then
           get_default_session_name "alice" "box.example.com"
         else "")) ∧
    (∀ a b : String, '.' ∉ a.data →
      get_default_session_name "alice" (a ++ "." ++ b) = "alice" ++ "@" ++ a) ∧
    ('.' ∉ ("box.example.com" : String).data →
      get_default_session_name "alice" "box.example.com" =
        "alice" ++ "@" ++ "box.example.com") ∧
    get_default_session_name "alice" "box.example.com" = "alice@box" :=
  session_name_attached [("role_arn", "arn:aws:iam::123:role/Dev")]
    "arn:aws:iam::123:role/Dev" "" 0 emptyFS "alice" "box.example.com" ""
    rfl (.int 0, none) rfl

theorem splitLines_no_newline {l : List Char} (h : '\n' ∉ l) :
    splitLines l = [l] := by
  induction l with
  | nil => rfl
  | cons c rest ih =>
      have hc : ¬ c = '\n' := fun hc => h (hc ▸ List.mem_cons_self _ _)
      have hrest : '\n' ∉ rest := fun hm => h (List.mem_cons_of_mem _ hm)
      simp [splitLines, hc, ih hrest]

theorem splitLines_line {l : List Char} (rest : List Char) (h : '\n' ∉ l) :
    splitLines (l ++ '\n' :: rest) = l :: splitLines rest := by
  induction l with
  | nil => simp [splitLines]
  | cons c tail ih =>
      have hc : ¬ c = '\n' := fun hc => h (hc ▸ List.mem_cons_self _ _)
      have htail : '\n' ∉ tail := fun hm => h (List.mem_cons_of_mem _ hm)
      have := ih htail
      simp only [List.cons_append, splitLines, if_neg hc, List.append_eq, this]

/-- C7: compose_envars renders exactly the three export assignments, in
the fixed order AWS_ACCESS_KEY_ID, AWS_SECRET_ACCESS_KEY,
AWS_SESSION_TOKEN, newline-joined with no trailing newline; and when the
credential values themselves contain no newline the output splits into
exactly those three lines, each of the exact form export NAME=VALUE. -/
theorem compose_envars_three_lines (c : Credentials) :
    compose_envars c =
      "export AWS_ACCESS_KEY_ID=" ++ c.accessKeyId ++ "\n" ++
      "export AWS_SECRET_ACCESS_KEY=" ++ c.secretAccessKey ++ "\n" ++
      "export AWS_SESSION_TOKEN=" ++ c.sessionToken ∧
    ('\n' ∉ c.accessKeyId.data → '\n' ∉ c.secretAccessKey.data →
      '\n' ∉ c.sessionToken.data →
      splitLines (compose_envars c).data =
        [("export AWS_ACCESS_KEY_ID=" ++ c.accessKeyId).data,
         ("export AWS_SECRET_ACCESS_KEY=" ++ c.secretAccessKey).data,
         ("export AWS_SESSION_TOKEN=" ++ c.sessionToken).data]) := by
  have h2 : ∀ r : String,
      "\n" ++ ("export AWS_SECRET_ACCESS_KEY=" ++ r) =
        "\nexport AWS_SECRET_ACCESS_KEY=" ++ r := by
    intro r
    rw [← String.append_assoc]
    rfl
  have h3 : ∀ r : String,
      "\n" ++ ("export AWS_SESSION_TOKEN=" ++ r) =
        "\nexport AWS_SESSION_TOKEN=" ++ r := by
    intro r
    rw [← String.append_assoc]
    rfl
  have hform : compose_envars c =
      "export AWS_ACCESS_KEY_ID=" ++ c.accessKeyId ++ "\n" ++
      "export AWS_SECRET_ACCESS_KEY=" ++ c.secretAccessKey ++ "\n" ++
      "export AWS_SESSION_TOKEN=" ++ c.sessionToken := by
    simp [compose_envars, String.intercalate, String.intercalate.go]
    simp [String.append_assoc, h2, h3]
  refine ⟨hform, fun hna hns hnt => ?_⟩
  have hcat : ∀ (l1 l2 : List Char), '\n' ∉ l1 → '\n' ∉ l2 → '\n' ∉ l1 ++ l2 := by
    intro l1 l2 n1 n2 hm
    rcases List.mem_append.mp hm with h | h
    exacts [n1 h, n2 h]
  have hd : ("export AWS_ACCESS_KEY_ID=" ++ c.accessKeyId ++ "\n" ++
      "export AWS_SECRET_ACCESS_KEY=" ++ c.secretAccessKey ++ "\n" ++
      "export AWS_SESSION_TOKEN=" ++ c.sessionToken).data =
      (("export AWS_ACCESS_KEY_ID=" : String).data ++ c.accessKeyId.data) ++ '\n' ::
        ((("export AWS_SECRET_ACCESS_KEY=" : String).data ++
            c.secretAccessKey.data) ++ '\n' ::
          (("export AWS_SESSION_TOKEN=" : String).data ++ c.sessionToken.data)) := by
    simp [String.data_append, List.append_assoc]
  rw [hform, hd, splitLines_line _ (hcat _ _ (by decide) hna),
      splitLines_line _ (hcat _ _ (by decide) hns),
      splitLines_no_newline (hcat _ _ (by decide) hnt)]
  simp [String.data_append]

/-- Witness for C7 on the concrete bundle from the spec's test vector. -/
theorem compose_envars_three_lines_witness :
    (compose_envars { accessKeyId := "AKIA1", secretAccessKey := "secret1",
                      sessionToken := "tok1" } =
      "export AWS_ACCESS_KEY_ID=" ++ "AKIA1" ++ "\n" ++
      "export AWS_SECRET_ACCESS_KEY=" ++ "secret1" ++ "\n" ++
      "export AWS_SESSION_TOKEN=" ++ "tok1" ∧
    ('\n' ∉ ("AKIA1" : String).data → '\n' ∉ ("secret1" : String).data →
      '\n' ∉ ("tok1" : String).data →
      splitLines (compose_envars { accessKeyId := "AKIA1",
                                   secretAccessKey := "secret1",
                                   sessionToken := "tok1" }).data =
        [("export AWS_ACCESS_KEY_ID=" ++ "AKIA1").data,
         ("export AWS_SECRET_ACCESS_KEY=" ++ "secret1").data,
         ("export AWS_SESSION_TOKEN=" ++ "tok1").data])) ∧
    compose_envars { accessKeyId := "AKIA1", secretAccessKey := "secret1",
                     sessionToken := "tok1" } =
      "export AWS_ACCESS_KEY_ID=AKIA1\nexport AWS_SECRET_ACCESS_KEY=secret1\nexport AWS_SESSION_TOKEN=tok1" :=
  ⟨compose_envars_three_lines
    { accessKeyId := "AKIA1", secretAccessKey := "secret1", sessionToken := "tok1" },
   by decide⟩
